import Mathlib

/-!
Verification of the SYSCON resource-ownership core and the USART/I2C clock
configuration arithmetic of the lpc82x/lpc845 HAL.

Registers are 32-bit words, embedded as natural numbers below `2 ^ 32`.
The register window (`RegProxy`/`reg!`) is an external collaborator; its
`modify` has plain read-modify-write semantics: the current register value is
fed through the resource's bit-transform and written back.  The svd2rust
writer operations `.field().enable()` / `.set_bit()` set the field's bit and
`.field().disable()` / `.clear_bit()` clear it; a field is identified here by
its bit position, which the external PAC crate provides.

Integer arithmetic from `clocksource_845.rs` is embedded with checked
semantics: `u8`/`u32` overflow and underflow, division by zero, and a failed
`assert!` all abort execution, which the embedding represents as
`Except.error` with the kind of abort.
-/

namespace LpcHal

/-- Size of the `u32` value space. -/
def u32Size : Nat := 4294967296

/-- All bits of a 32-bit register set. -/
def mask32 : Nat := 2 ^ 32 - 1

/-- Writer operation that sets the field bit at position `i`
(svd2rust `.field().enable()` resp. `.field().set_bit()`). -/
def setBit (i : Nat) (w : Nat) : Nat := w ||| 2 ^ i

/-- Writer operation that clears the field bit at position `i`
(svd2rust `.field().disable()` resp. `.field().clear_bit()`). -/
def clearBit (i : Nat) (w : Nat) : Nat := w &&& (mask32 ^^^ 2 ^ i)

/-- Chain of `set` writer operations, one per field of a resource.  The
macro-generated `ClockControl::enable_clock` impls are the singleton case;
the 845 dual-bank GPIO impl `w.gpio0().enable().gpio1().enable()` is the
two-element case. -/
def enableFields (fs : List Nat) (w : Nat) : Nat :=
  fs.foldl (fun w i => setBit i w) w

/-- Chain of `clear` writer operations, one per field of a resource. -/
def disableFields (fs : List Nat) (w : Nat) : Nat :=
  fs.foldl (fun w i => clearBit i w) w

/-- The SYSCON handle: sole owner of the four shared control registers
(`lpc8xx-hal-common/src/syscon.rs`, `struct Handle`). -/
structure Handle where
  pdruncfg : Nat
  presetctrl : Nat
  starterp1 : Nat
  sysahbclkctrl : Nat
  deriving DecidableEq

/-- Embeds `Handle::enable_clock`: read-modify-write of SYSAHBCLKCTRL through the
resource's `enable_clock` writer transform.  The resource is represented by
the list of bit positions of its clock-gate fields. -/
def Handle.enable_clock (h : Handle) (fs : List Nat) : Handle :=
  { h with sysahbclkctrl := enableFields fs h.sysahbclkctrl }

/-- Embeds `Handle::disable_clock`: read-modify-write of SYSAHBCLKCTRL through the
resource's `disable_clock` writer transform. -/
def Handle.disable_clock (h : Handle) (fs : List Nat) : Handle :=
  { h with sysahbclkctrl := disableFields fs h.sysahbclkctrl }

/-- Embeds `Handle::assert_reset`: the macro-generated `ResetControl::assert_reset`
clears the resource's field bit(s) in PRESETCTRL (`w.$field().clear_bit()`);
the 845 GPIO impl clears both `gpio0_rst_n` and `gpio1_rst_n`. -/
def Handle.assert_reset (h : Handle) (fs : List Nat) : Handle :=
  { h with presetctrl := disableFields fs h.presetctrl }

/-- Embeds `Handle::clear_reset`: `ResetControl::clear_reset` sets the resource's
field bit(s) in PRESETCTRL (`w.$field().set_bit()`). -/
def Handle.clear_reset (h : Handle) (fs : List Nat) : Handle :=
  { h with presetctrl := enableFields fs h.presetctrl }

/-- Embeds `Handle::power_up`: the macro-generated `AnalogBlock::power_up` clears
the block's single field bit in PDRUNCFG (`w.$field().clear_bit()`). -/
def Handle.power_up (h : Handle) (i : Nat) : Handle :=
  { h with pdruncfg := clearBit i h.pdruncfg }

/-- Embeds `Handle::power_down`: `AnalogBlock::power_down` sets the block's field
bit in PDRUNCFG (`w.$field().set_bit()`). -/
def Handle.power_down (h : Handle) (i : Nat) : Handle :=
  { h with pdruncfg := setBit i h.pdruncfg }

/-- Typestate tag of a clock object (`init_state::Disabled` /
`init_state::Enabled`). -/
inductive InitState where
  | disabled
  | enabled
  deriving DecidableEq

/-- The 750 kHz IRC-derived clock of the lpc82x HAL
(`lpc82x-hal/src/syscon.rs`). -/
structure IrcDerivedClock where
  state : InitState
  deriving DecidableEq

/-- Embeds `IrcDerivedClock::<Disabled>::enable`: powers up the IRC oscillator,
then its output buffer, and returns the Enabled-tagged instance.  `irc_pd`
and `ircout_pd` are the PDRUNCFG field bit positions of the consumed `IRC`
and `IRCOUT` tokens. -/
def IrcDerivedClock.enable (_self : IrcDerivedClock) (irc_pd ircout_pd : Nat)
    (syscon : Handle) : IrcDerivedClock × Handle :=
  (⟨InitState.enabled⟩, (syscon.power_up irc_pd).power_up ircout_pd)

/-- Embeds `clock::Frequency::hz` for `IrcDerivedClock<State>`: the fixed constant,
independent of the typestate. -/
def IrcDerivedClock.hz (_ : IrcDerivedClock) : Nat := 750000

/-- The 750 kHz FRO-derived clock of the lpc845 HAL
(`lpc845-hal/src/syscon.rs`). -/
structure FroDerivedClock where
  state : InitState
  deriving DecidableEq

/-- Embeds `FroDerivedClock::<Disabled>::enable`: powers up the FRO oscillator,
then its output buffer, and returns the Enabled-tagged instance. -/
def FroDerivedClock.enable (_self : FroDerivedClock) (fro_pd froout_pd : Nat)
    (syscon : Handle) : FroDerivedClock × Handle :=
  (⟨InitState.enabled⟩, (syscon.power_up fro_pd).power_up froout_pd)

/-- Embeds `clock::Frequency::hz` for `FroDerivedClock<State>`. -/
def FroDerivedClock.hz (_ : FroDerivedClock) : Nat := 750000

/-- The ways a configuration step can abort at run time. -/
inductive Panic where
  | mulOverflow
  | subOverflow
  | divByZero
  | assertFailed
  deriving DecidableEq

/-- Checked `u32` multiplication. -/
def u32Mul (a b : Nat) : Except Panic Nat :=
  if a * b < u32Size then Except.ok (a * b) else Except.error Panic.mulOverflow

/-- Checked `u32` subtraction. -/
def u32Sub (a b : Nat) : Except Panic Nat :=
  if b ≤ a then Except.ok (a - b) else Except.error Panic.subOverflow

/-- Checked `u8` subtraction. -/
def u8Sub (a b : Nat) : Except Panic Nat :=
  if b ≤ a then Except.ok (a - b) else Except.error Panic.subOverflow

/-- Checked `u32` division; division by zero aborts in every build profile. -/
def u32Div (a b : Nat) : Except Panic Nat :=
  if b = 0 then Except.error Panic.divByZero else Except.ok (a / b)

/-- Clock configuration for a USART (`src/syscon/clocksource_845.rs`,
`struct UsartClock`): the stored divisor and oversampling register values. -/
structure UsartClock where
  psc : Nat
  osrval : Nat
  deriving DecidableEq

/-- Embeds `UsartClock::new`: decrements `osrval` (a `u8` subtraction), then runs
`assert!(osrval > 3 && osrval < 0x10)` on the decremented value. -/
def UsartClock.new (psc osrval : Nat) : Except Panic UsartClock := do
  let osrval ← u8Sub osrval 1
  if 3 < osrval ∧ osrval < 16 then
    Except.ok ⟨psc, osrval⟩
  else
    Except.error Panic.assertFailed

/-- The sequence of candidate oversampling ratios visited by the loop
`for i in (5..=16).rev()`. -/
def osrCandidates : List Nat := [16, 15, 14, 13, 12, 11, 10, 9, 8, 7, 6, 5]

/-- The loop body of `UsartClock::new_with_baudrate`: for each candidate `i`
(visited from 16 down to 5) the running `osrval` is overwritten with `i`
whenever `calcVal * i < 12_000_000`. -/
def selectOsr (calcVal : Nat) : List Nat → Nat → Except Panic Nat
  | [], osrval => Except.ok osrval
  | i :: rest, osrval => do
      let p ← u32Mul calcVal i
      selectOsr calcVal rest (if p < 12000000 then i else osrval)

/-- Embeds `UsartClock::new_with_baudrate`: derives the oversampling ratio and the
divisor from the target baud rate against the fixed 12 MHz source.  The
final `as u16` cast wraps, hence the `% 65536`. -/
def UsartClock.new_with_baudrate (baudrate : Nat) : Except Panic UsartClock := do
  let calcVal ← u32Mul baudrate 20
  let osrval ← selectOsr calcVal osrCandidates 5
  let prod ← u32Mul baudrate osrval
  let q ← u32Div 12000000 prod
  let psc ← u32Sub q 1
  Except.ok ⟨psc % 65536, osrval - 1⟩

/-- The divisor search as the specification words it: the largest
oversampling ratio r in [5,16] such that `20*B*r < 12_000_000` (the head of
the descending candidate list restricted to the satisfying ratios),
defaulting to 5. -/
def spec_largest_osr (baudrate : Nat) : Nat :=
  (osrCandidates.filter (fun r => 20 * baudrate * r < 12000000)).headD 5

/-- Clock configuration for an I2C peripheral
(`src/syscon/clocksource_845.rs`, `struct I2cClock`). -/
structure I2cClock where
  divval : Nat
  mstsclhigh : Nat
  mstscllow : Nat
  deriving DecidableEq

/-- Embeds `I2cClock::new`: asserts both SCL counts into (1, 10), then stores each
minus 2 (the subtractions run only after both assertions pass). -/
def I2cClock.new (divval mstsclhigh mstscllow : Nat) : Except Panic I2cClock :=
  if 1 < mstsclhigh ∧ mstsclhigh < 10 then
    if 1 < mstscllow ∧ mstscllow < 10 then
      Except.ok ⟨divval, mstsclhigh - 2, mstscllow - 2⟩
    else
      Except.error Panic.assertFailed
  else
    Except.error Panic.assertFailed

/-- Embeds `I2cClock::new_400khz`: the 400 kHz preset for a 12 MHz source. -/
def I2cClock.new_400khz : I2cClock := ⟨5, 0, 1⟩

/-! Bit-level facts about the writer operations. -/

theorem testBit_setBit (i w j : Nat) :
    (setBit i w).testBit j = (w.testBit j || decide (i = j)) := by
  simp [setBit, Nat.testBit_or, Nat.testBit_two_pow]

theorem testBit_clearBit (i w j : Nat) :
    (clearBit i w).testBit j
      = (w.testBit j && (decide (j < 32) ^^ decide (i = j))) := by
  have h1 : (mask32 ^^^ 2 ^ i).testBit j = (decide (j < 32) ^^ decide (i = j)) := by
    rw [Nat.testBit_xor, show mask32 = 2 ^ 32 - 1 from rfl,
      Nat.testBit_two_pow_sub_one, Nat.testBit_two_pow]
  rw [clearBit, Nat.testBit_and, h1]

theorem enableFields_cons (i : Nat) (fs : List Nat) (w : Nat) :
    enableFields (i :: fs) w = enableFields fs (setBit i w) := rfl

theorem disableFields_cons (i : Nat) (fs : List Nat) (w : Nat) :
    disableFields (i :: fs) w = disableFields fs (clearBit i w) := rfl

theorem testBit_enableFields (fs : List Nat) (w j : Nat) :
    (enableFields fs w).testBit j = (w.testBit j || decide (j ∈ fs)) := by
  induction fs generalizing w with
  | nil => simp [enableFields]
  | cons i fs ih =>
      rw [enableFields_cons, ih, testBit_setBit]
      have hmem : decide (j ∈ i :: fs) = (decide (i = j) || decide (j ∈ fs)) := by
        by_cases h1 : i = j
        · subst h1
          simp [List.mem_cons]
        · by_cases h2 : j ∈ fs
          · simp [List.mem_cons, h1, h2]
          · simp [List.mem_cons, h1, h2, Ne.symm h1]
      rw [hmem, Bool.or_assoc]

theorem testBit_enableFields_mem (fs : List Nat) (w j : Nat) (hj : j ∈ fs) :
    (enableFields fs w).testBit j = true := by
  rw [testBit_enableFields]
  simp [hj]

theorem testBit_enableFields_not_mem (fs : List Nat) (w j : Nat) (hj : j ∉ fs) :
    (enableFields fs w).testBit j = w.testBit j := by
  rw [testBit_enableFields]
  simp [hj]

theorem testBit_disableFields_false (fs : List Nat) (w j : Nat)
    (h : w.testBit j = false) : (disableFields fs w).testBit j = false := by
  induction fs generalizing w with
  | nil => exact h
  | cons i fs ih =>
      rw [disableFields_cons]
      exact ih _ (by rw [testBit_clearBit, h, Bool.false_and])

theorem testBit_disableFields_mem (fs : List Nat) (w j : Nat) (hj32 : j < 32)
    (hj : j ∈ fs) : (disableFields fs w).testBit j = false := by
  induction fs generalizing w with
  | nil => cases hj
  | cons i fs ih =>
      rw [disableFields_cons]
      rcases List.mem_cons.mp hj with h | h
      · subst h
        apply testBit_disableFields_false
        rw [testBit_clearBit]
        simp [hj32]
      · exact ih _ h

theorem testBit_disableFields_small (fs : List Nat) (w j : Nat) (hj32 : j < 32)
    (hj : j ∉ fs) : (disableFields fs w).testBit j = w.testBit j := by
  induction fs generalizing w with
  | nil => rfl
  | cons i fs ih =>
      have hji : ¬ i = j := fun h => hj (h ▸ List.mem_cons_self i fs)
      have hj' : j ∉ fs := fun h => hj (List.mem_cons_of_mem i h)
      rw [disableFields_cons, ih _ hj', testBit_clearBit]
      simp [hj32, hji]

theorem testBit_disableFields_not_mem (fs : List Nat) (w j : Nat) (hj : j ∉ fs)
    (hw : w < 2 ^ 32) : (disableFields fs w).testBit j = w.testBit j := by
  by_cases hj32 : j < 32
  · exact testBit_disableFields_small fs w j hj32 hj
  · have h32j : (2 : Nat) ^ 32 ≤ 2 ^ j :=
      Nat.pow_le_pow_right (by norm_num) (Nat.le_of_not_lt hj32)
    have hwj : w.testBit j = false :=
      Nat.testBit_lt_two_pow (Nat.lt_of_lt_of_le hw h32j)
    rw [hwj]
    exact testBit_disableFields_false fs w j hwj

theorem disableFields_lt (fs : List Nat) (w : Nat) (hw : w < 2 ^ 32) :
    disableFields fs w < 2 ^ 32 := by
  induction fs generalizing w with
  | nil => exact hw
  | cons i fs ih =>
      rw [disableFields_cons]
      exact ih _ (Nat.lt_of_le_of_lt Nat.and_le_left hw)

theorem enableFields_lt (fs : List Nat) (w : Nat) (hw : w < 2 ^ 32)
    (hf : ∀ i ∈ fs, i < 32) : enableFields fs w < 2 ^ 32 := by
  induction fs generalizing w with
  | nil => exact hw
  | cons i fs ih =>
      rw [enableFields_cons]
      refine ih _ (Nat.or_lt_two_pow hw ?_) (fun k hk => hf k (List.mem_cons_of_mem i hk))
      exact Nat.pow_lt_pow_right (by norm_num) (hf i (List.mem_cons_self i fs))

theorem enableFields_enableFields (fs : List Nat) (s : Nat) :
    enableFields fs (enableFields fs s) = enableFields fs s := by
  apply Nat.eq_of_testBit_eq
  intro j
  by_cases hj : j ∈ fs
  · rw [testBit_enableFields_mem fs _ j hj, testBit_enableFields_mem fs _ j hj]
  · rw [testBit_enableFields_not_mem fs _ j hj, testBit_enableFields_not_mem fs _ j hj]

theorem disableFields_disableFields (fs : List Nat) (s : Nat)
    (hf : ∀ i ∈ fs, i < 32) (hs : s < 2 ^ 32) :
    disableFields fs (disableFields fs s) = disableFields fs s := by
  apply Nat.eq_of_testBit_eq
  intro j
  by_cases hj : j ∈ fs
  · rw [testBit_disableFields_mem fs _ j (hf j hj) hj,
      testBit_disableFields_mem fs _ j (hf j hj) hj]
  · rw [testBit_disableFields_not_mem fs _ j hj (disableFields_lt fs s hs),
      testBit_disableFields_not_mem fs _ j hj hs]

theorem disableFields_enableFields (fs : List Nat) (s : Nat)
    (hf : ∀ i ∈ fs, i < 32) (hs : s < 2 ^ 32) :
    disableFields fs (enableFields fs s) = disableFields fs s := by
  apply Nat.eq_of_testBit_eq
  intro j
  by_cases hj : j ∈ fs
  · rw [testBit_disableFields_mem fs _ j (hf j hj) hj,
      testBit_disableFields_mem fs _ j (hf j hj) hj]
  · rw [testBit_disableFields_not_mem fs _ j hj (enableFields_lt fs s hs hf),
      testBit_disableFields_not_mem fs _ j hj hs,
      testBit_enableFields_not_mem fs _ j hj]

theorem enableFields_disableFields (fs : List Nat) (s : Nat)
    (hf : ∀ i ∈ fs, i < 32) (hs : s < 2 ^ 32) :
    enableFields fs (disableFields fs s) = enableFields fs s := by
  apply Nat.eq_of_testBit_eq
  intro j
  by_cases hj : j ∈ fs
  · rw [testBit_enableFields_mem fs _ j hj, testBit_enableFields_mem fs _ j hj]
  · rw [testBit_enableFields_not_mem fs _ j hj, testBit_enableFields_not_mem fs _ j hj,
      testBit_disableFields_not_mem fs _ j hj hs]

/-- C2: for every resource with the clock-control capability (given by the
bit positions `fs` of its clock-gate fields, a singleton for every
`impl_clock_control!` resource and the two positions `g0`, `g1` for the 845
dual-bank GPIO resource), `Handle::enable_clock` sets exactly the resource's
bits in SYSAHBCLKCTRL: every bit of the resource reads back set, every other
bit of the register is unchanged, and the other three registers are
untouched; the 845 GPIO resource sets its two bits together. -/
theorem enable_clock_exact_mask (fs : List Nat) (h : Handle) :
    (∀ j ∈ fs, (h.enable_clock fs).sysahbclkctrl.testBit j = true)
    ∧ (∀ j, j ∉ fs →
        (h.enable_clock fs).sysahbclkctrl.testBit j = h.sysahbclkctrl.testBit j)
    ∧ (h.enable_clock fs).pdruncfg = h.pdruncfg
    ∧ (h.enable_clock fs).presetctrl = h.presetctrl
    ∧ (h.enable_clock fs).starterp1 = h.starterp1
    ∧ (∀ g0 g1 : Nat,
        (h.enable_clock [g0, g1]).sysahbclkctrl.testBit g0 = true
        ∧ (h.enable_clock [g0, g1]).sysahbclkctrl.testBit g1 = true) := by
  refine ⟨fun j hj => ?_, fun j hj => ?_, rfl, rfl, rfl, fun g0 g1 => ⟨?_, ?_⟩⟩
  · exact testBit_enableFields_mem fs _ j hj
  · exact testBit_enableFields_not_mem fs _ j hj
  · exact testBit_enableFields_mem [g0, g1] _ g0 (by simp)
  · exact testBit_enableFields_mem [g0, g1] _ g1 (by simp)

theorem enable_clock_exact_mask_witness :
    ((Handle.mk 0 0 0 0).enable_clock [3]).sysahbclkctrl.testBit 3 = true
    ∧ ((Handle.mk 0 0 0 0).enable_clock [3]).sysahbclkctrl.testBit 4
        = (0 : Nat).testBit 4
    ∧ ((Handle.mk 0 0 0 0).enable_clock [6, 20]).sysahbclkctrl.testBit 6 = true
    ∧ ((Handle.mk 0 0 0 0).enable_clock [6, 20]).sysahbclkctrl.testBit 20 = true :=
  ⟨(enable_clock_exact_mask [3] (Handle.mk 0 0 0 0)).1 3 (by decide),
   (enable_clock_exact_mask [3] (Handle.mk 0 0 0 0)).2.1 4 (by decide),
   ((enable_clock_exact_mask [3] (Handle.mk 0 0 0 0)).2.2.2.2.2 6 20).1,
   ((enable_clock_exact_mask [3] (Handle.mk 0 0 0 0)).2.2.2.2.2 6 20).2⟩

/-- C3: inverted polarity of the reset and power-down registers.  For a
resource with the reset-control capability (field bit positions `fs`, all
below 32), `Handle::assert_reset` clears the resource's bits in PRESETCTRL
and `Handle::clear_reset` sets them; for an analog block with field bit `i`,
`Handle::power_up` clears its bit in PDRUNCFG and `Handle::power_down` sets
it (cleared bit = powered / in reset released from). -/
theorem reset_power_inverted_polarity (fs : List Nat) (h : Handle)
    (hf : ∀ i ∈ fs, i < 32) (i : Nat) (hi : i < 32) :
    (∀ j ∈ fs, (h.assert_reset fs).presetctrl.testBit j = false)
    ∧ (∀ j ∈ fs, (h.clear_reset fs).presetctrl.testBit j = true)
    ∧ (h.power_up i).pdruncfg.testBit i = false
    ∧ (h.power_down i).pdruncfg.testBit i = true := by
  refine ⟨fun j hj => ?_, fun j hj => ?_, ?_, ?_⟩
  · exact testBit_disableFields_mem fs _ j (hf j hj) hj
  · exact testBit_enableFields_mem fs _ j hj
  · show (clearBit i h.pdruncfg).testBit i = false
    rw [testBit_clearBit]
    simp [hi]
  · show (setBit i h.pdruncfg).testBit i = true
    rw [testBit_setBit]
    simp

theorem reset_power_inverted_polarity_witness :
    ((Handle.mk 5 5 5 5).assert_reset [0]).presetctrl.testBit 0 = false
    ∧ ((Handle.mk 5 5 5 5).clear_reset [1]).presetctrl.testBit 1 = true
    ∧ ((Handle.mk 5 5 5 5).power_up 0).pdruncfg.testBit 0 = false
    ∧ ((Handle.mk 5 5 5 5).power_down 1).pdruncfg.testBit 1 = true :=
  ⟨(reset_power_inverted_polarity [0] (Handle.mk 5 5 5 5) (by decide) 0
      (by decide)).1 0 (by decide),
   (reset_power_inverted_polarity [1] (Handle.mk 5 5 5 5) (by decide) 0
      (by decide)).2.1 1 (by decide),
   (reset_power_inverted_polarity [0] (Handle.mk 5 5 5 5) (by decide) 0
      (by decide)).2.2.1,
   (reset_power_inverted_polarity [0] (Handle.mk 5 5 5 5) (by decide) 1
      (by decide)).2.2.2⟩

/-- C4: for every clock-control resource (field bits `fs`, all below 32) and
every starting 32-bit register state, `disable_clock` is the exact inverse
of `enable_clock` on the resource's mask, and both operations are
idempotent: enabling after disabling gives the same state as enabling,
disabling after enabling the same as disabling, and repeating either
operation changes nothing further. -/
theorem disable_clock_inverse_idempotent (fs : List Nat) (h : Handle)
    (hf : ∀ i ∈ fs, i < 32) (hs : h.sysahbclkctrl < 2 ^ 32) :
    (h.enable_clock fs).disable_clock fs = h.disable_clock fs
    ∧ (h.disable_clock fs).enable_clock fs = h.enable_clock fs
    ∧ (h.enable_clock fs).enable_clock fs = h.enable_clock fs
    ∧ (h.disable_clock fs).disable_clock fs = h.disable_clock fs := by
  refine ⟨?_, ?_, ?_, ?_⟩ <;>
    simp only [Handle.enable_clock, Handle.disable_clock, Handle.mk.injEq,
      true_and, and_true]
  · exact disableFields_enableFields fs _ hf hs
  · exact enableFields_disableFields fs _ hf hs
  · exact enableFields_enableFields fs _
  · exact disableFields_disableFields fs _ hf hs

theorem disable_clock_inverse_idempotent_witness :
    ((Handle.mk 0 0 0 9).enable_clock [1]).disable_clock [1]
      = (Handle.mk 0 0 0 9).disable_clock [1]
    ∧ ((Handle.mk 0 0 0 9).disable_clock [1]).enable_clock [1]
      = (Handle.mk 0 0 0 9).enable_clock [1]
    ∧ ((Handle.mk 0 0 0 9).enable_clock [1]).enable_clock [1]
      = (Handle.mk 0 0 0 9).enable_clock [1]
    ∧ ((Handle.mk 0 0 0 9).disable_clock [1]).disable_clock [1]
      = (Handle.mk 0 0 0 9).disable_clock [1] :=
  disable_clock_inverse_idempotent [1] (Handle.mk 0 0 0 9) (by decide) (by norm_num)

/-- C8: enabling the typestate-tracked derived clock.  Starting from a
Disabled-tagged instance, `enable` performs `power_up` on the Handle for the
oscillator block and then for its output buffer (for the lpc82x
`IrcDerivedClock` the `IRC` and `IRCOUT` blocks, with PDRUNCFG field bits
`irc_pd` and `ircout_pd`), returns an Enabled-tagged instance, clears both
power-down bits while leaving every other PDRUNCFG bit and the other three
registers unchanged, and the frequency accessor `hz` returns the constant
750_000 both on the Disabled instance and on the Enabled result; the lpc845
`FroDerivedClock` behaves identically. -/
theorem derived_clock_enable (c : IrcDerivedClock) (cf : FroDerivedClock)
    (hc : c.state = InitState.disabled) (hcf : cf.state = InitState.disabled)
    (irc_pd ircout_pd : Nat) (hi : irc_pd < 32) (ho : ircout_pd < 32)
    (h : Handle) (hw : h.pdruncfg < 2 ^ 32) :
    (c.enable irc_pd ircout_pd h).2 = (h.power_up irc_pd).power_up ircout_pd
    ∧ (c.enable irc_pd ircout_pd h).1.state = InitState.enabled
    ∧ (c.enable irc_pd ircout_pd h).2.pdruncfg.testBit irc_pd = false
    ∧ (c.enable irc_pd ircout_pd h).2.pdruncfg.testBit ircout_pd = false
    ∧ (∀ j, j ≠ irc_pd → j ≠ ircout_pd →
        (c.enable irc_pd ircout_pd h).2.pdruncfg.testBit j = h.pdruncfg.testBit j)
    ∧ (c.enable irc_pd ircout_pd h).2.presetctrl = h.presetctrl
    ∧ (c.enable irc_pd ircout_pd h).2.starterp1 = h.starterp1
    ∧ (c.enable irc_pd ircout_pd h).2.sysahbclkctrl = h.sysahbclkctrl
    ∧ c.hz = 750000
    ∧ (c.enable irc_pd ircout_pd h).1.hz = 750000
    ∧ (cf.enable irc_pd ircout_pd h).2 = (h.power_up irc_pd).power_up ircout_pd
    ∧ (cf.enable irc_pd ircout_pd h).1.state = InitState.enabled
    ∧ cf.hz = 750000
    ∧ (cf.enable irc_pd ircout_pd h).1.hz = 750000 := by
  have hpd : ((h.power_up irc_pd).power_up ircout_pd).pdruncfg
      = disableFields [irc_pd, ircout_pd] h.pdruncfg := rfl
  refine ⟨rfl, rfl, ?_, ?_, fun j hji hjo => ?_, rfl, rfl, rfl, rfl, rfl,
    rfl, rfl, rfl, rfl⟩
  · show ((h.power_up irc_pd).power_up ircout_pd).pdruncfg.testBit irc_pd = false
    rw [hpd]
    exact testBit_disableFields_mem _ _ _ hi (by simp)
  · show ((h.power_up irc_pd).power_up ircout_pd).pdruncfg.testBit ircout_pd = false
    rw [hpd]
    exact testBit_disableFields_mem _ _ _ ho (by simp)
  · show ((h.power_up irc_pd).power_up ircout_pd).pdruncfg.testBit j
        = h.pdruncfg.testBit j
    rw [hpd]
    exact testBit_disableFields_not_mem _ _ _ (by simp [hji, hjo]) hw

theorem derived_clock_enable_witness :
    ((IrcDerivedClock.mk InitState.disabled).enable 1 2 (Handle.mk 7 0 0 0)).2
      = ((Handle.mk 7 0 0 0).power_up 1).power_up 2
    ∧ ((IrcDerivedClock.mk InitState.disabled).enable 1 2
        (Handle.mk 7 0 0 0)).1.state = InitState.enabled
    ∧ ((IrcDerivedClock.mk InitState.disabled).enable 1 2
        (Handle.mk 7 0 0 0)).2.pdruncfg.testBit 1 = false
    ∧ (IrcDerivedClock.mk InitState.disabled).hz = 750000
    ∧ ((FroDerivedClock.mk InitState.disabled).enable 1 2
        (Handle.mk 7 0 0 0)).1.hz = 750000 := by
  have h := derived_clock_enable (IrcDerivedClock.mk InitState.disabled)
    (FroDerivedClock.mk InitState.disabled) rfl rfl 1 2 (by decide) (by decide)
    (Handle.mk 7 0 0 0) (by norm_num)
  exact ⟨h.1, h.2.1, h.2.2.1, h.2.2.2.2.2.2.2.2.1, h.2.2.2.2.2.2.2.2.2.2.2.2.2⟩

deriving instance DecidableEq for Except

/-! Evaluation lemmas for the `Except` chains. -/

theorem ok_bind {α β : Type} (a : α) (f : α → Except Panic β) :
    (Except.ok a : Except Panic α) >>= f = f a := rfl

theorem error_bind {α β : Type} (e : Panic) (f : α → Except Panic β) :
    (Except.error e : Except Panic α) >>= f = Except.error e := rfl

theorem usart_new_eval_pos (psc osrval : Nat) (h1 : 1 ≤ osrval) :
    UsartClock.new psc osrval
      = if 3 < osrval - 1 ∧ osrval - 1 < 16 then
          Except.ok ⟨psc, osrval - 1⟩
        else
          Except.error Panic.assertFailed := by
  simp only [UsartClock.new, u8Sub, h1, if_true, ok_bind]

/-- C5 counterexample: the out-of-range input `osrval = 0` does not abort in
the range assertion.  The decrement `osrval - 1` is a `u8` subtraction that
underflows first, so the abort is the arithmetic underflow, not the
assertion failure the claim states. -/
theorem usart_new_zero_not_assert :
    UsartClock.new 0 0 = Except.error Panic.subOverflow
    ∧ UsartClock.new 0 0 ≠ Except.error Panic.assertFailed := by
  decide

/-- C5 (amended): `UsartClock::new` accepts `osrval` exactly in the range 5
to 16 inclusive, storing it as `osrval - 1`; every out-of-range input aborts
immediately (a contract violation — never clamped, never a recoverable
value), and for out-of-range inputs of 1 or more the abort is precisely the
range assertion failure (input 0 aborts in the preceding `u8` decrement
instead). -/
theorem usart_new_contract (psc osrval : Nat) :
    (5 ≤ osrval → osrval ≤ 16 →
        UsartClock.new psc osrval = Except.ok ⟨psc, osrval - 1⟩)
    ∧ ((osrval < 5 ∨ 16 < osrval) →
        ∃ e, UsartClock.new psc osrval = Except.error e)
    ∧ (1 ≤ osrval → (osrval < 5 ∨ 16 < osrval) →
        UsartClock.new psc osrval = Except.error Panic.assertFailed) := by
  have hthird : 1 ≤ osrval → (osrval < 5 ∨ 16 < osrval) →
      UsartClock.new psc osrval = Except.error Panic.assertFailed := by
    intro h1 hout
    rw [usart_new_eval_pos psc osrval h1, if_neg (by omega)]
  refine ⟨fun h5 h16 => ?_, fun hout => ?_, hthird⟩
  · rw [usart_new_eval_pos psc osrval (by omega), if_pos (by omega)]
  · by_cases h0 : osrval = 0
    · subst h0
      exact ⟨Panic.subOverflow, by simp [UsartClock.new, u8Sub, error_bind]⟩
    · exact ⟨Panic.assertFailed, hthird (by omega) hout⟩

theorem usart_new_contract_witness :
    UsartClock.new 7 5 = Except.ok ⟨7, 4⟩
    ∧ (∃ e, UsartClock.new 7 17 = Except.error e)
    ∧ UsartClock.new 7 17 = Except.error Panic.assertFailed :=
  ⟨(usart_new_contract 7 5).1 (by decide) (by decide),
   (usart_new_contract 7 17).2.1 (by decide),
   (usart_new_contract 7 17).2.2 (by decide) (by decide)⟩

/-- C10: in `UsartClock::new` the decrement `osrval - 1` is evaluated before
the range assertion, so input 0 aborts in the `u8` subtraction underflow
before the assertion can report the contract violation, while for every
input of 1 or more the subtraction succeeds and control reaches the
assertion (the outcome is then the constructed value or the assertion
failure, never the underflow abort). -/
theorem usart_new_underflow_before_assert (psc osrval : Nat) :
    UsartClock.new psc 0 = Except.error Panic.subOverflow
    ∧ (1 ≤ osrval →
        UsartClock.new psc osrval = Except.ok ⟨psc, osrval - 1⟩
        ∨ UsartClock.new psc osrval = Except.error Panic.assertFailed) := by
  constructor
  · simp [UsartClock.new, u8Sub, error_bind]
  · intro h1
    rw [usart_new_eval_pos psc osrval h1]
    by_cases hc : 3 < osrval - 1 ∧ osrval - 1 < 16
    · exact Or.inl (if_pos hc)
    · exact Or.inr (if_neg hc)

theorem usart_new_underflow_before_assert_witness :
    UsartClock.new 3 0 = Except.error Panic.subOverflow
    ∧ (UsartClock.new 3 2 = Except.ok ⟨3, 1⟩
        ∨ UsartClock.new 3 2 = Except.error Panic.assertFailed) :=
  ⟨(usart_new_underflow_before_assert 3 0).1,
   (usart_new_underflow_before_assert 3 2).2 (by decide)⟩

/-- C6: `I2cClock::new` accepts `mstsclhigh` and `mstscllow` exactly in the
range 2 to 9 inclusive, stores each as the input minus 2, and aborts with an
assertion failure for every out-of-range input (both assertions run before
the subtractions). -/
theorem i2c_new_contract (divval mstsclhigh mstscllow : Nat) :
    (2 ≤ mstsclhigh → mstsclhigh ≤ 9 → 2 ≤ mstscllow → mstscllow ≤ 9 →
        I2cClock.new divval mstsclhigh mstscllow
          = Except.ok ⟨divval, mstsclhigh - 2, mstscllow - 2⟩)
    ∧ ((mstsclhigh < 2 ∨ 9 < mstsclhigh ∨ mstscllow < 2 ∨ 9 < mstscllow) →
        I2cClock.new divval mstsclhigh mstscllow
          = Except.error Panic.assertFailed) := by
  constructor
  · intro h1 h2 h3 h4
    rw [show I2cClock.new divval mstsclhigh mstscllow
        = if 1 < mstsclhigh ∧ mstsclhigh < 10 then
            if 1 < mstscllow ∧ mstscllow < 10 then
              Except.ok ⟨divval, mstsclhigh - 2, mstscllow - 2⟩
            else Except.error Panic.assertFailed
          else Except.error Panic.assertFailed from rfl,
      if_pos (by omega), if_pos (by omega)]
  · intro hout
    by_cases hh : 1 < mstsclhigh ∧ mstsclhigh < 10
    · have hl : ¬ (1 < mstscllow ∧ mstscllow < 10) := by omega
      rw [show I2cClock.new divval mstsclhigh mstscllow
          = if 1 < mstsclhigh ∧ mstsclhigh < 10 then
              if 1 < mstscllow ∧ mstscllow < 10 then
                Except.ok ⟨divval, mstsclhigh - 2, mstscllow - 2⟩
              else Except.error Panic.assertFailed
            else Except.error Panic.assertFailed from rfl,
        if_pos hh, if_neg hl]
    · rw [show I2cClock.new divval mstsclhigh mstscllow
          = if 1 < mstsclhigh ∧ mstsclhigh < 10 then
              if 1 < mstscllow ∧ mstscllow < 10 then
                Except.ok ⟨divval, mstsclhigh - 2, mstscllow - 2⟩
              else Except.error Panic.assertFailed
            else Except.error Panic.assertFailed from rfl,
        if_neg hh]

theorem i2c_new_contract_witness :
    I2cClock.new 5 2 9 = Except.ok ⟨5, 0, 7⟩
    ∧ I2cClock.new 5 10 3 = Except.error Panic.assertFailed :=
  ⟨(i2c_new_contract 5 2 9).1 (by decide) (by decide) (by decide) (by decide),
   (i2c_new_contract 5 10 3).2 (by decide)⟩

/-- C7: the 400 kHz preset returns exactly `divval = 5`, stored
`mstsclhigh = 0` and stored `mstscllow = 1`; these stored values correspond
to the raw inputs 2 and 3 of `I2cClock::new`. -/
theorem i2c_new_400khz_preset :
    I2cClock.new_400khz.divval = 5
    ∧ I2cClock.new_400khz.mstsclhigh = 0
    ∧ I2cClock.new_400khz.mstscllow = 1
    ∧ I2cClock.new 5 2 3 = Except.ok I2cClock.new_400khz := by
  decide

/-- C1: evaluation of the baud-rate search at concrete inputs.  For
`baudrate = 9600` the largest admissible oversampling ratio per
`spec_largest_osr` is 16 (`20*9600*16 = 3_072_000 < 12_000_000`), yet the
code returns the configuration for ratio 5 (`psc = 249`, stored
`osrval = 4`), not the one for ratio 16 (`psc = 77`, stored `osrval = 15`):
the reverse loop keeps overwriting `osrval` on every match, so the last
match — the smallest ratio — wins.  For `baudrate = 115200` the largest
admissible ratio happens to be 5, so there the code agrees with the claim. -/
theorem baudrate_search_selects_smallest :
    spec_largest_osr 9600 = 16
    ∧ 20 * 9600 * 16 < 12000000
    ∧ UsartClock.new_with_baudrate 9600 = Except.ok ⟨249, 4⟩
    ∧ UsartClock.new_with_baudrate 9600 ≠ Except.ok ⟨77, 15⟩
    ∧ spec_largest_osr 115200 = 5
    ∧ UsartClock.new_with_baudrate 115200 = Except.ok ⟨19, 4⟩ := by
  decide

theorem selectOsr_ok : ∀ (l : List Nat) (calcVal osr : Nat),
    (∀ i ∈ l, calcVal * i < u32Size ∧ ¬ calcVal * i < 12000000) →
    selectOsr calcVal l osr = Except.ok osr
  | [], _, _, _ => rfl
  | i :: rest, calcVal, osr, hl => by
      obtain ⟨h1, h2⟩ := hl i (List.mem_cons_self i rest)
      simp only [selectOsr, u32Mul, if_pos h1, ok_bind, if_neg h2]
      exact selectOsr_ok rest calcVal osr (fun k hk => hl k (List.mem_cons_of_mem i hk))

theorem new_with_baudrate_err (B : Nat) (hB : 2400000 < B) :
    UsartClock.new_with_baudrate B = Except.error Panic.subOverflow
    ∨ UsartClock.new_with_baudrate B = Except.error Panic.mulOverflow := by
  by_cases h1 : B * 20 < u32Size
  · by_cases h2 : B * 20 * 16 < u32Size
    · left
      have hsel : selectOsr (B * 20) osrCandidates 5 = Except.ok 5 := by
        apply selectOsr_ok
        intro i hi
        have hib : 5 ≤ i ∧ i ≤ 16 := by
          have hmem : ∀ k ∈ osrCandidates, 5 ≤ k ∧ k ≤ 16 := by decide
          exact hmem i hi
        have hle : B * 20 * i ≤ B * 20 * 16 := Nat.mul_le_mul le_rfl hib.2
        have hge : B * 20 * 5 ≤ B * 20 * i := Nat.mul_le_mul le_rfl hib.1
        exact ⟨Nat.lt_of_le_of_lt hle h2,
          Nat.not_lt.mpr (le_trans (by omega) hge)⟩
      have hprod : B * 5 < u32Size := by
        have hle : B * 5 ≤ B * 20 * 16 := by
          have h320 : B * 20 * 16 = B * 320 := by ring
          rw [h320]
          exact Nat.mul_le_mul le_rfl (by norm_num)
        exact Nat.lt_of_le_of_lt hle h2
      have hne : ¬ B * 5 = 0 := by omega
      have hq : 12000000 / (B * 5) = 0 := Nat.div_eq_of_lt (by omega)
      simp only [UsartClock.new_with_baudrate, u32Mul, if_pos h1, ok_bind, hsel,
        if_pos hprod, u32Div, if_neg hne, hq, u32Sub,
        if_neg (by omega : ¬ (1:Nat) ≤ 0), error_bind]
    · right
      have hsel : selectOsr (B * 20) osrCandidates 5
          = Except.error Panic.mulOverflow := by
        simp only [osrCandidates, selectOsr, u32Mul, if_neg h2, error_bind]
      simp only [UsartClock.new_with_baudrate, u32Mul, if_pos h1, ok_bind, hsel,
        error_bind]
  · right
    simp only [UsartClock.new_with_baudrate, u32Mul, if_neg h1, error_bind]

/-- C9: `UsartClock::new_with_baudrate` checks nothing about its argument
and is not total.  For `baudrate = 0` the divisor computation divides by
zero; for every `baudrate > 2_400_000` the call aborts — up to the point
where a `u32` product overflows first, the abort is exactly the underflow
of `12_000_000 / (baudrate * 5) - 1`, whose quotient is 0 for every such
baud rate. -/
theorem new_with_baudrate_not_total :
    UsartClock.new_with_baudrate 0 = Except.error Panic.divByZero
    ∧ (∀ B, 2400000 < B → ∃ e, UsartClock.new_with_baudrate B = Except.error e)
    ∧ (∀ B, 2400000 < B → 12000000 / (B * 5) = 0) := by
  refine ⟨by decide, fun B hB => ?_, fun B hB => Nat.div_eq_of_lt (by omega)⟩
  rcases new_with_baudrate_err B hB with h | h
  · exact ⟨_, h⟩
  · exact ⟨_, h⟩

theorem new_with_baudrate_not_total_witness :
    UsartClock.new_with_baudrate 0 = Except.error Panic.divByZero
    ∧ (∃ e, UsartClock.new_with_baudrate 2400001 = Except.error e)
    ∧ 12000000 / (2400001 * 5) = 0 :=
  ⟨new_with_baudrate_not_total.1,
   new_with_baudrate_not_total.2.1 2400001 (by decide),
   new_with_baudrate_not_total.2.2 2400001 (by decide)⟩

end LpcHal
